import Mathlib

/-!
# Verification of the arc-apollo-cli code generation pipeline

Shallow embedding of the three source files of the repository:
- packages/arc-apollo-codegen-typescript/src/codeGeneration.ts (the TypeScript emitter),
- packages/arc-apollo-cli/src/generate.ts (the generate driver),
- packages/arc-apollo-cli/src/commands/codegen/generate.ts (the CLI command).

Parts of the repository that the sources import but that are not available
(the codegen-core compiler: typeCase variant computation, collectAndMergeFields,
compileToIR, and the TypescriptGenerator language helpers) are modelled from the
specification and marked as such in their doc comments.

Imperative state (the printer queue and the naming scope stack of the
TypescriptAPIGenerator) is threaded explicitly through a GenState value.
Recursion through nested selection sets is expressed with an explicit fuel
parameter; every theorem quantifies over the fuel.
-/

namespace ApolloCli

/-- GraphQL schema types as consumed by the emitter (the graphql package is an
external dependency; only the shape needed by the sources is modelled:
named kinds plus List/NonNull wrappers). -/
inductive GType where
  | scalar (name : String)
  | enum (name : String)
  | inputObject (name : String)
  | object (name : String)
  | iface (name : String)
  | gunion (name : String)
  | list (ofType : GType)
  | nonNull (ofType : GType)
deriving DecidableEq, Repr

/-- Is the type a GraphQLEnumType (the instanceof check of printEnumsAndInputObjects). -/
def GType.isEnum : GType → Bool
  | .enum _ => true
  | _ => false

/-- Is the type a GraphQLInputObjectType (the instanceof check of printEnumsAndInputObjects). -/
def GType.isInputObject : GType → Bool
  | .inputObject _ => true
  | _ => false

mutual
/-- A compiler SelectionSet: resolved possible concrete types (by name) and the
ordered selections, mirroring the SelectionSet consumed by codeGeneration.ts. -/
inductive SelectionSet where
  | mk (possibleTypes : List String) (selections : List Selection)

/-- A selection: a field, an inline type condition, or a fragment spread.
Type conditions and spreads carry the set of concrete type names their
condition covers, plus their nested selection set. -/
inductive Selection where
  | field (f : Field)
  | typeCondition (condTypes : List String) (selectionSet : SelectionSet)
  | fragmentSpread (condTypes : List String) (selectionSet : SelectionSet)

/-- A compiler Field as consumed by codeGeneration.ts: name, optional alias,
resolved type, optional description, optional nested selection set. -/
inductive Field where
  | mk (name : String) (aliasName : Option String) (type : GType)
       (descr : Option String) (selectionSet : Option SelectionSet)
end

def SelectionSet.possibleTypes : SelectionSet → List String
  | .mk p _ => p

def SelectionSet.selections : SelectionSet → List Selection
  | .mk _ s => s

def Field.name : Field → String
  | .mk n _ _ _ _ => n

def Field.aliasName : Field → Option String
  | .mk _ a _ _ _ => a

def Field.type : Field → GType
  | .mk _ _ t _ _ => t

def Field.descr : Field → Option String
  | .mk _ _ _ d _ => d

def Field.selectionSet : Field → Option SelectionSet
  | .mk _ _ _ _ s => s

@[simp] theorem SelectionSet.possibleTypes_mk (p : List String) (s : List Selection) :
    (SelectionSet.mk p s).possibleTypes = p := rfl

@[simp] theorem SelectionSet.selections_mk (p : List String) (s : List Selection) :
    (SelectionSet.mk p s).selections = s := rfl

/-! ## Variant engine, modelled from the spec

The typeCase visitor (typeCaseForSelectionSet, exhaustiveVariants) lives in
arc-apollo-codegen-core, which is not among the sources; it is modelled from
the specification, section 4.2. -/

/-- Modelled from the spec: which concrete types one selection applies to
(section 4.2, steps 2 and 3): a direct field applies to every possible type;
a selection guarded by a type condition or spread applies only to the types
covered by its condition. -/
def selApplies (t : String) : Selection → Bool
  | .field _ => true
  | .typeCondition condTypes _ => condTypes.contains t
  | .fragmentSpread condTypes _ => condTypes.contains t

/-- Modelled from the spec: the grouping key of a concrete type (section 4.2,
step 4): the list of (indices of) selections applicable to that type. -/
def typeKeyIdx (sels : List Selection) (t : String) : List Nat :=
  (List.range sels.length).filter fun i =>
    match sels[i]? with
    | some s => selApplies t s
    | none => false

/-- Deduplicate a list keeping the first occurrence of each element
(first-seen order, as the spec requires for deterministic variant order). -/
def firstSeen {α : Type} [DecidableEq α] : List α → List α
  | [] => []
  | a :: l => a :: (firstSeen l).filter fun b => decide (b ≠ a)

theorem mem_firstSeen {α : Type} [DecidableEq α] (x : α) :
    ∀ l : List α, x ∈ firstSeen l ↔ x ∈ l := by
  intro l
  induction l with
  | nil => simp [firstSeen]
  | cons a l ih =>
    simp only [firstSeen, List.mem_cons, List.mem_filter, decide_eq_true_eq, ih]
    by_cases hxa : x = a
    · simp [hxa]
    · simp [hxa]

/-- Modelled from the spec: the Variant for one grouping key: the group of
possible types sharing that key, together with the selections applicable to
them (a Variant is itself a SelectionSet, section 4.2 step 4). -/
def variantFor (ss : SelectionSet) (k : List Nat) : SelectionSet :=
  SelectionSet.mk
    (ss.possibleTypes.filter fun t => decide (typeKeyIdx ss.selections t = k))
    (k.filterMap fun i => ss.selections[i]?)

/-- Modelled from the spec: exhaustiveVariants of typeCaseForSelectionSet
(section 4.2): group the possible concrete types by the set of selections
applicable to them, in first-seen order. -/
def exhaustiveVariants (ss : SelectionSet) : List SelectionSet :=
  (firstSeen (ss.possibleTypes.map (typeKeyIdx ss.selections))).map (variantFor ss)

/-! ## Field merge engine, modelled from the spec

collectAndMergeFields lives in arc-apollo-codegen-core/visitors, which is not
among the sources; it is modelled from the specification, section 4.3. -/

/-- Modelled from the spec: walk the selections applicable to one variant,
flattening type conditions that cover all of the variant's types, and
fragment spreads likewise when mergeInFieldsFromFragmentSpreads is set
(section 4.3). Fuel bounds the nesting depth. -/
def collectFields : Nat → Bool → List String → List Selection → List Field
  | 0, _, _, _ => []
  | _ + 1, _, _, [] => []
  | fuel + 1, merge, vtypes, s :: rest =>
    (match s with
     | .field f => [f]
     | .typeCondition condTypes ss =>
       if vtypes.all (fun t => condTypes.contains t) then
         collectFields fuel merge vtypes ss.selections
       else []
     | .fragmentSpread condTypes ss =>
       if merge && vtypes.all (fun t => condTypes.contains t) then
         collectFields fuel merge vtypes ss.selections
       else []) ++ collectFields fuel merge vtypes rest

/-- The output key of a field: the alias when present, else the name
(section 4.3 of the spec; the `alias !== undefined` check of the sources). -/
def responseKey (f : Field) : String := f.aliasName.getD f.name

/-- The output key as computed by a JavaScript truthiness check
(`field.alias ? field.alias : field.name` in handleFieldValue and
handleFieldSelectionSetValue): an empty-string alias falls back to the name. -/
def responseKeyTruthy (f : Field) : String :=
  match f.aliasName with
  | some a => if a = "" then f.name else a
  | none => f.name

/-- Modelled from the spec: merging two fields that share an output key keeps
the first and merges their nested selection sets by taking the union of their
selections (section 4.3). -/
def mergeTwoFields (g f : Field) : Field :=
  match g, f.selectionSet with
  | .mk n a t d (some s1), some s2 =>
    .mk n a t d (some (SelectionSet.mk s1.possibleTypes (s1.selections ++ s2.selections)))
  | g, _ => g

/-- Modelled from the spec: fold one field into an accumulated list,
deduplicating by output key in first-seen order (section 4.3). -/
def addMergedField (acc : List Field) (f : Field) : List Field :=
  if acc.any (fun g => responseKey g = responseKey f) then
    acc.map fun g => if responseKey g = responseKey f then mergeTwoFields g f else g
  else acc ++ [f]

/-- Modelled from the spec: collectAndMergeFields of the codegen core
(section 4.3): collect the fields applicable to a variant and deduplicate
them by output key, first-seen order. -/
def collectAndMergeFields (fuel : Nat) (merge : Bool) (variant : SelectionSet) : List Field :=
  (collectFields fuel merge variant.possibleTypes variant.selections).foldl addMergedField []

/-! ## The TypeScript emitter (codeGeneration.ts)

The TypescriptAPIGenerator with its printer queue and scope stack, embedded
with explicit state passing. The language helpers it inherits from
TypescriptGenerator (language.ts, not among the sources) are modelled as
constructors of Decl and TSType. -/

/-- The TypeScript type expressions the emitter puts on object properties.
unionOfLiterals ns models `TSUnionType(ns.map(n => TSLiteralType(stringLiteral(n))))`;
ofGraphQL models the result of typeFromGraphQLType (language.ts, not among the
sources), applied to a GraphQL type and an optional generated identifier name. -/
inductive TSType where
  | unionOfLiterals (names : List String)
  | ofGraphQL (g : GType) (identName : Option String)
deriving DecidableEq, Repr

/-- An ObjectProperty as passed to the interface builders of language.ts. -/
structure ObjectProperty where
  name : String
  description : Option String
  type : TSType
deriving DecidableEq, Repr

/-- A declaration enqueued on the printer. Modelled from the spec: the
rendering functions of language.ts (interface, exportDeclaration,
typeAliasGenericUnion, enumerationDeclaration, inputObjectDeclaration) are not
among the sources; each is kept as a symbolic declaration node. -/
inductive Decl where
  | raw (s : String)
  | exportInterface (name : String) (props : List ObjectProperty)
  | exportInterfaceVars (name : String) (props : List ObjectProperty)
  | exportUnion (name : String) (members : List String)
  | enumDecl (t : GType)
  | inputObjectDecl (t : GType)
deriving DecidableEq, Repr

/-- The mutable pieces of TypescriptAPIGenerator: the naming scope stack and
the printer queue, plus two instrumentation counters recording how many times
the emitter itself invoked typeCaseForSelectionSet (variant computation) and
collectAndMergeFields (field merging). -/
structure GenState where
  scopeStack : List String
  printed : List Decl
  typeCaseCalls : Nat
  mergeCalls : Nat
deriving Repr

/-- scopeStackPush of codeGeneration.ts: JavaScript Array.push appends at the end. -/
def scopeStackPush (name : String) (st : GenState) : GenState :=
  { st with scopeStack := st.scopeStack ++ [name] }

/-- scopeStackPop of codeGeneration.ts: JavaScript Array.pop removes the last element. -/
def scopeStackPop (st : GenState) : GenState :=
  { st with scopeStack := st.scopeStack.dropLast }

/-- Printer.enqueue. -/
def enqueue (d : Decl) (st : GenState) : GenState :=
  { st with printed := st.printed ++ [d] }

/-- Printer.printAndClear: return everything enqueued and clear the queue. -/
def printAndClear (st : GenState) : List Decl × GenState :=
  (st.printed, { st with printed := [] })

/-- Modelled from the spec: nameFromScopeStack of language.ts (not among the
sources): the join of the scope stack by the fixed separator. -/
def nameFromScopeStack : List String → String
  | [] => ""
  | [x] => x
  | x :: rest => x ++ "_" ++ nameFromScopeStack rest

/-- getVariantsForSelectionSet / getTypeCasesForSelectionSet of
codeGeneration.ts: delegate to the (modelled) typeCase visitor and record the
invocation on the instrumentation counter. The
mergeInFieldsFromFragmentSpreads flag passed by the source only switches field
collection (spec section 4.3), so the modelled variant computation does not
consume it. -/
def getVariantsForSelectionSetCounted (ss : SelectionSet) (st : GenState) :
    List SelectionSet × GenState :=
  (exhaustiveVariants ss, { st with typeCaseCalls := st.typeCaseCalls + 1 })

/-- handleFieldValue of codeGeneration.ts: a field named __typename is typed
as the union of the string-literal types of the variant's possible type names;
any other field is typed by typeFromGraphQLType. -/
def handleFieldValue (f : Field) (variant : SelectionSet) : ObjectProperty :=
  if f.name = "__typename" then
    { name := responseKeyTruthy f
      description := f.descr
      type := TSType.unionOfLiterals variant.possibleTypes }
  else
    { name := responseKeyTruthy f
      description := f.descr
      type := TSType.ofGraphQL f.type none }

mutual
/-- getPropertiesForVariant of codeGeneration.ts: collect and merge the
variant's fields (recording the collectAndMergeFields invocation), then build
one ObjectProperty per field, pushing the field's output key on the scope
stack around each. -/
def getPropertiesForVariant : Nat → Bool → SelectionSet → GenState → List ObjectProperty × GenState
  | 0, _, _, st => ([], st)
  | fuel + 1, merge, variant, st =>
    let st1 : GenState := { st with mergeCalls := st.mergeCalls + 1 }
    let fields := collectAndMergeFields fuel merge variant
    propertiesForFields fuel merge variant fields st1

/-- The fields.map body of getPropertiesForVariant: push the output key,
handle the field (with nested selection set or not), pop. -/
def propertiesForFields : Nat → Bool → SelectionSet → List Field → GenState → List ObjectProperty × GenState
  | 0, _, _, _, st => ([], st)
  | _ + 1, _, _, [], st => ([], st)
  | fuel + 1, merge, variant, f :: rest, st =>
    let st1 := scopeStackPush (responseKey f) st
    let r2 : ObjectProperty × GenState :=
      match f.selectionSet with
      | some ss => handleFieldSelectionSetValue fuel merge (nameFromScopeStack st1.scopeStack) f ss st1
      | none => (handleFieldValue f variant, st1)
    let st3 := scopeStackPop r2.2
    let r4 := propertiesForFields fuel merge variant rest st3
    (r2.1 :: r4.1, r4.2)

/-- handleFieldSelectionSetValue of codeGeneration.ts: compute the variants of
the field's selection set; a single variant becomes one exported interface
named from the scope stack, several variants become one exported interface per
variant (scoped by the variant's first possible type name) plus an exported
union alias. -/
def handleFieldSelectionSetValue : Nat → Bool → String → Field → SelectionSet → GenState → ObjectProperty × GenState
  | 0, _, generatedName, f, _, st =>
    ({ name := responseKeyTruthy f, description := f.descr
       type := TSType.ofGraphQL f.type (some generatedName) }, st)
  | fuel + 1, merge, generatedName, f, ss, st =>
    let type := TSType.ofGraphQL f.type (some generatedName)
    let r1 := getVariantsForSelectionSetCounted ss st
    let variants := r1.1
    let st1 := r1.2
    if variants.length = 1 then
      let r2 := getPropertiesForVariant fuel merge (variants.headD (SelectionSet.mk [] [])) st1
      let st3 := enqueue (Decl.exportInterface (nameFromScopeStack r2.2.scopeStack) r2.1) r2.2
      ({ name := responseKeyTruthy f, description := f.descr, type := type }, st3)
    else
      let r2 := variantsLoop fuel merge variants st1
      let st3 := enqueue (Decl.exportUnion generatedName r2.1) r2.2
      ({ name := responseKeyTruthy f, description := f.descr, type := type }, st3)

/-- The variants.map body shared by handleFieldSelectionSetValue (lines
385-399) and interfacesForFragment (lines 217-234): push the variant's first
possible type name, emit the variant's interface, record its identifier, pop. -/
def variantsLoop : Nat → Bool → List SelectionSet → GenState → List String × GenState
  | 0, _, _, st => ([], st)
  | _ + 1, _, [], st => ([], st)
  | fuel + 1, merge, v :: rest, st =>
    let st1 := scopeStackPush (v.possibleTypes.headD "") st
    let r2 := getPropertiesForVariant fuel merge v st1
    let identifierName := nameFromScopeStack r2.2.scopeStack
    let st3 := enqueue (Decl.exportInterface identifierName r2.1) r2.2
    let st4 := scopeStackPop st3
    let r5 := variantsLoop fuel merge rest st4
    (identifierName :: r5.1, r5.2)
end

/-- A variable of an operation. -/
structure Variable where
  name : String
  type : GType
deriving DecidableEq, Repr

/-- An operation of the CompilerContext (the fields consumed by the sources). -/
structure Operation where
  operationName : String
  operationType : String
  filePath : String
  operationVariables : List Variable
  selectionSet : SelectionSet

/-- A fragment of the CompilerContext (the fields consumed by the sources). -/
structure Fragment where
  fragmentName : String
  filePath : String
  selectionSet : SelectionSet

/-- The compiler options consumed by the sources. -/
structure CompilerOptions where
  addTypename : Bool := false
  mergeInFieldsFromFragmentSpreads : Bool := false
  generateOperationIds : Bool := false
  operationIdsPath : String := ""
deriving DecidableEq, Repr

/-- The CompilerContext handed to the backend emitters: operations, fragments,
typesUsed and the echoed options. Note it carries selection sets, not
precomputed variants. -/
structure CompilerContext where
  operations : List Operation
  fragments : List Fragment
  typesUsed : List GType
  options : CompilerOptions

/-- The fileHeader chunk of codeGeneration.ts. -/
def fileHeaderText : String :=
  "/* tslint:disable */\n// This file was automatically generated and should not be edited."

/-- fileHeader of TypescriptAPIGenerator. -/
def fileHeader (st : GenState) : GenState := enqueue (Decl.raw fileHeaderText) st

/-- A banner line of n repeated equality signs. -/
def bannerLine (n : Nat) : String := String.mk (List.replicate n '=')

/-- The comment banner emitted at the top of an operation. -/
def operationHeaderText (operationType operationName : String) : String :=
  "// " ++ bannerLine 52 ++ "\n// GraphQL " ++
    operationType ++ " operation: " ++ operationName ++
    "\n// " ++ bannerLine 52

/-- The comment banner emitted at the top of a fragment. -/
def fragmentHeaderText (fragmentName : String) : String :=
  "// " ++ bannerLine 52 ++ "\n// GraphQL fragment: " ++
    fragmentName ++ "\n// " ++ bannerLine 52

/-- The part of interfacesForOperation after the getVariantsForSelectionSet
call (codeGeneration.ts lines 164-185): build the operation interface from
variants[0], then the Variables interface when the operation has variables. -/
def interfacesForOperationFromVariants (fuel : Nat) (merge : Bool) (op : Operation)
    (variants : List SelectionSet) (st : GenState) : GenState :=
  let r1 := getPropertiesForVariant fuel merge (variants.headD (SelectionSet.mk [] [])) st
  let st2 := enqueue (Decl.exportInterface op.operationName r1.1) r1.2
  let st3 := scopeStackPop st2
  if 0 < op.operationVariables.length then
    let interfaceName := op.operationName ++ "Variables"
    let st4 := scopeStackPush interfaceName st3
    let st5 := enqueue (Decl.exportInterfaceVars interfaceName
      (op.operationVariables.map fun v => ⟨v.name, none, TSType.ofGraphQL v.type none⟩)) st4
    scopeStackPop st5
  else st3

/-- interfacesForOperation of codeGeneration.ts. -/
def interfacesForOperation (fuel : Nat) (merge : Bool) (op : Operation) (st : GenState) : GenState :=
  let st1 := scopeStackPush op.operationName st
  let st2 := enqueue (Decl.raw (operationHeaderText op.operationType op.operationName)) st1
  let r3 := getVariantsForSelectionSetCounted op.selectionSet st2
  interfacesForOperationFromVariants fuel merge op r3.1 r3.2

/-- interfacesForFragment of codeGeneration.ts. -/
def interfacesForFragment (fuel : Nat) (merge : Bool) (frag : Fragment) (st : GenState) : GenState :=
  let st1 := scopeStackPush frag.fragmentName st
  let st2 := enqueue (Decl.raw (fragmentHeaderText frag.fragmentName)) st1
  let r3 := getVariantsForSelectionSetCounted frag.selectionSet st2
  let variants := r3.1
  let st3 := r3.2
  if variants.length = 1 then
    let r4 := getPropertiesForVariant fuel merge (variants.headD (SelectionSet.mk [] [])) st3
    let name := nameFromScopeStack r4.2.scopeStack
    let st5 := enqueue (Decl.exportInterface name r4.1) r4.2
    scopeStackPop st5
  else
    let r4 := variantsLoop fuel merge variants st3
    let st5 := enqueue (Decl.exportUnion (nameFromScopeStack r4.2.scopeStack) r4.1) r4.2
    scopeStackPop st5

/-- The START banner of printEnumsAndInputObjects. -/
def startEnumsText : String :=
  "//" ++ bannerLine 62 ++ "\n// START Enums and Input Objects\n//" ++ bannerLine 62

/-- The END banner of printEnumsAndInputObjects. -/
def endEnumsText : String :=
  "//" ++ bannerLine 62 ++ "\n// END Enums and Input Objects\n//" ++ bannerLine 62

/-- printEnumsAndInputObjects of codeGeneration.ts. -/
def printEnumsAndInputObjects (typesUsed : List GType) (st : GenState) : GenState :=
  let st1 := enqueue (Decl.raw startEnumsText) st
  let st2 := (typesUsed.filter GType.isEnum).foldl (fun s t => enqueue (Decl.enumDecl t) s) st1
  let st3 := (typesUsed.filter GType.isInputObject).foldl
    (fun s t => enqueue (Decl.inputObjectDecl t) s) st2
  enqueue (Decl.raw endEnumsText) st3

/-- One generated file of generateSource. -/
structure GeneratedFile where
  sourcePath : String
  fileName : String
  content : List Decl
deriving DecidableEq, Repr

/-- The value returned by generateSource, plus the final generator state
(scope stack, counters) for the theorems. -/
structure GenerateSourceResult where
  generatedFiles : List GeneratedFile
  common : List Decl
  finalState : GenState
deriving Repr

/-- The freshly constructed TypescriptAPIGenerator state. -/
def initialGenState : GenState := ⟨[], [], 0, 0⟩

/-- The Object.values(context.operations).forEach loop of generateSource. -/
def emitOperations (fuel : Nat) (merge : Bool) :
    List Operation → GenState → List GeneratedFile × GenState
  | [], st => ([], st)
  | op :: rest, st =>
    let st1 := fileHeader st
    let st2 := interfacesForOperation fuel merge op st1
    let r3 := printAndClear st2
    let r4 := emitOperations fuel merge rest r3.2
    (⟨op.filePath, op.operationName ++ ".ts", r3.1⟩ :: r4.1, r4.2)

/-- The Object.values(context.fragments).forEach loop of generateSource. -/
def emitFragments (fuel : Nat) (merge : Bool) :
    List Fragment → GenState → List GeneratedFile × GenState
  | [], st => ([], st)
  | frag :: rest, st =>
    let st1 := fileHeader st
    let st2 := interfacesForFragment fuel merge frag st1
    let r3 := printAndClear st2
    let r4 := emitFragments fuel merge rest r3.2
    (⟨frag.filePath, frag.fragmentName ++ ".ts", r3.1⟩ :: r4.1, r4.2)

/-- generateSource of codeGeneration.ts: one file per operation, one per
fragment, then the shared enums/input-objects output. -/
def generateSource (fuel : Nat) (context : CompilerContext) : GenerateSourceResult :=
  let merge := context.options.mergeInFieldsFromFragmentSpreads
  let r1 := emitOperations fuel merge context.operations initialGenState
  let r2 := emitFragments fuel merge context.fragments r1.2
  let st3 := fileHeader r2.2
  let st4 := printEnumsAndInputObjects context.typesUsed st3
  let r5 := printAndClear st4
  ⟨r1.1 ++ r2.1, r5.1, r5.2⟩

/-! ## The generate driver (arc-apollo-cli/src/generate.ts)

The collaborators generate.ts imports from arc-apollo-codegen-core and the
other backend packages (loading, validation, IR compilation, the non-TS
emitters, the file system) are not among the sources; they enter as an
explicit dependency record so their results can be quantified over. The
TypeScript backend is the embedded generateSource above, exactly as
generate.ts binds it. -/

/-- Placeholder for the external GraphQLSchema object (opaque to generate.ts). -/
abbrev Schema := String

/-- Placeholder for the merged document AST (opaque to generate.ts). -/
abbrev DocumentAst := String

/-- Placeholder for the legacy IR context (opaque to generate.ts). -/
abbrev LegacyContext := String

/-- The TargetType union of generate.ts. -/
inductive TargetType where
  | json
  | swift
  | tsLegacy
  | typescriptLegacy
  | flowLegacy
  | scala
  | flow
  | typescript
  | ts
deriving DecidableEq, Repr

/-- A payload handed to fs.writeFileSync: plain text from the legacy/swift
paths, or a list of declarations from the flow/typescript paths. -/
inductive WriteContent where
  | text (s : String)
  | decls (ds : List Decl)
deriving DecidableEq, Repr

/-- The value returned by generateSwiftSource as consumed by generate.ts. -/
structure SwiftGenerator where
  generatedFiles : List (String × String)
  output : String

/-- The external collaborators of generate.ts, as functions whose outcomes the
theorems quantify over. -/
structure GenerateDeps where
  loadAndMergeQueryDocuments : List String → String → Except String DocumentAst
  validateQueryDocument : Schema → DocumentAst → Except String Unit
  compileToIR : Schema → DocumentAst → CompilerOptions → Except String CompilerContext
  compileToLegacyIR : Schema → DocumentAst → CompilerOptions → Except String LegacyContext
  serializeToJSON : LegacyContext → String
  tsLegacySource : LegacyContext → String
  flowLegacySource : LegacyContext → String
  scalaSource : LegacyContext → String
  flowSource : CompilerContext → GenerateSourceResult
  swiftSource : CompilerContext → Bool → Option String → SwiftGenerator
  serializeOperationIds : CompilerContext → String
  fsExistsSync : String → Bool
  fsStatIsDirectory : String → Bool

/-- JavaScript String.prototype.split with a single-character separator,
defined structurally over the character list (split(".") of an empty string is
[""], and separators at the ends produce empty groups, as in JavaScript). -/
def splitChars (sep : Char) : List Char → List (List Char)
  | [] => [[]]
  | c :: rest =>
    match splitChars sep rest with
    | [] => [[c]]
    | g :: gs => if c = sep then [] :: g :: gs else (c :: g) :: gs

/-- JavaScript s.split(sep) for one-character separators. -/
def jsSplit (sep : Char) (s : String) : List String :=
  (splitChars sep s.data).map fun l => String.mk l

/-- node's path.join, simplified to separator concatenation. -/
def pathJoin (a b : String) : String := a ++ "/" ++ b

/-- node's path.dirname, simplified: drop the last path component. -/
def pathDirname (s : String) : String :=
  String.intercalate "/" ((jsSplit '/' s).dropLast)

/-- node's path.resolve("."), left symbolic. -/
def pathResolveDot : String := "."

/-- JavaScript object property assignment obj[key] = v on a string-keyed
object, preserving first-insertion key order. -/
def objAssign (acc : List (String × WriteContent)) (key : String) (v : WriteContent) :
    List (String × WriteContent) :=
  if acc.any (fun kv => kv.1 = key) then
    acc.map fun kv => if kv.1 = key then (key, v) else kv
  else acc ++ [(key, v)]

/-- The observable outcome of one run of generate: the returned written-files
count (or the propagated error), every fs.writeFileSync call in order, every
fs.mkdirSync call, the options value passed to compileToIR/compileToLegacyIR
(none when compilation was never reached), and the caller's options object as
it stands when generate returns or throws. -/
structure GenerateResult where
  result : Except String Nat
  writes : List (String × WriteContent)
  mkdirs : List String
  compileOptions : Option CompilerOptions
  finalOptions : CompilerOptions

/-- generate of arc-apollo-cli/src/generate.ts. -/
def generate (fuel : Nat) (deps : GenerateDeps) (inputPaths : List String) (schema : Schema)
    (outputPath : String) (only : Option String) (target : TargetType) (tagName : String)
    (nextToSources : Bool) (options : CompilerOptions) : GenerateResult :=
  match deps.loadAndMergeQueryDocuments inputPaths tagName with
  | .error e => ⟨.error e, [], [], none, options⟩
  | .ok document =>
  match deps.validateQueryDocument schema document with
  | .error e => ⟨.error e, [], [], none, options⟩
  | .ok _ =>
  let mkdirs := if (jsSplit '.' outputPath).length ≤ 1 && !deps.fsExistsSync outputPath
                then [outputPath] else []
  if target = TargetType.swift then
    let options := { options with addTypename := true }
    match deps.compileToIR schema document options with
    | .error e => ⟨.error e, [], mkdirs, some options, options⟩
    | .ok context =>
      let outputIndividualFiles :=
        deps.fsExistsSync outputPath && deps.fsStatIsDirectory outputPath
      let generator := deps.swiftSource context outputIndividualFiles only
      let r1 : List (String × WriteContent) × Nat :=
        if outputIndividualFiles then
          (generator.generatedFiles.map fun kv => (pathJoin outputPath kv.1, WriteContent.text kv.2),
           generator.generatedFiles.length)
        else ([(outputPath, WriteContent.text generator.output)], 1)
      let r2 : List (String × WriteContent) × Nat :=
        if options.generateOperationIds then
          ([(context.options.operationIdsPath, WriteContent.text (deps.serializeOperationIds context))], 1)
        else ([], 0)
      ⟨.ok (r1.2 + r2.2), r1.1 ++ r2.1, mkdirs, some options, options⟩
  else if target = TargetType.flow ∨ target = TargetType.typescript ∨ target = TargetType.ts then
    match deps.compileToIR schema document options with
    | .error e => ⟨.error e, [], mkdirs, some options, options⟩
    | .ok context =>
      let res := if target = TargetType.flow then deps.flowSource context
                 else generateSource fuel context
      let generatedFiles := res.generatedFiles
      let common := res.common
      if nextToSources then
        let outFiles := generatedFiles.foldl
          (fun acc gf =>
            objAssign acc (pathJoin (pathJoin (pathDirname gf.sourcePath) outputPath) gf.fileName)
              (WriteContent.decls (gf.content ++ common))) []
        let dirMkdirs := generatedFiles.filterMap fun gf =>
          let dir := pathJoin (pathDirname gf.sourcePath) outputPath
          if deps.fsExistsSync dir then none else some dir
        ⟨.ok outFiles.length,
         outFiles.map (fun kv => (pathJoin pathResolveDot kv.1, kv.2)),
         mkdirs ++ dirMkdirs, some options, options⟩
      else if deps.fsExistsSync outputPath && deps.fsStatIsDirectory outputPath then
        let outFiles := generatedFiles.foldl
          (fun acc gf => objAssign acc gf.fileName (WriteContent.decls (gf.content ++ common))) []
        ⟨.ok outFiles.length,
         outFiles.map (fun kv => (pathJoin outputPath kv.1, kv.2)),
         mkdirs, some options, options⟩
      else
        ⟨.ok 1,
         [(outputPath, WriteContent.decls ((generatedFiles.map (fun gf => gf.content)).flatten ++ common))],
         mkdirs, some options, options⟩
  else
    match deps.compileToLegacyIR schema document options with
    | .error e => ⟨.error e, [], mkdirs, some options, options⟩
    | .ok context =>
      let output :=
        match target with
        | .json => deps.serializeToJSON context
        | .tsLegacy => deps.tsLegacySource context
        | .typescriptLegacy => deps.tsLegacySource context
        | .flowLegacy => deps.flowLegacySource context
        | .scala => deps.scalaSource context
        | _ => ""
      if outputPath ≠ "" then
        ⟨.ok 1, [(outputPath, WriteContent.text output)], mkdirs, some options, options⟩
      else ⟨.ok 0, [], mkdirs, some options, options⟩

/-! ## The CLI target inference (commands/codegen/generate.ts) -/

/-- The error message of the default case of the target-inference switch. -/
def inferTargetErrorText : String :=
  "Could not infer target from output file type, please use --target"

/-- args.output.split(".").reverse()[0] of Generate.run. -/
def lastDotComponent (output : String) : String :=
  ((jsSplit '.' output).reverse).headD ""

/-- The target-inference switch of Generate.run. In JavaScript the case label
expression "ts" || "tsx" evaluates to its first truthy operand "ts", and
"js" || "jsx" to "js", so only the exact extensions ts and js are matched;
tsx and jsx fall to the default error case. -/
def inferTargetFromOutput (output : String) : Except String TargetType :=
  match lastDotComponent output with
  | "json" => .ok TargetType.json
  | "swift" => .ok TargetType.swift
  | "ts" => .ok TargetType.typescript
  | "js" => .ok TargetType.flow
  | "scala" => .ok TargetType.scala
  | _ => .error inferTargetErrorText

/-! ## Projection lemmas for the generator state -/

@[simp] theorem scopeStack_scopeStackPush (n : String) (st : GenState) :
    (scopeStackPush n st).scopeStack = st.scopeStack ++ [n] := rfl

@[simp] theorem scopeStack_scopeStackPop (st : GenState) :
    (scopeStackPop st).scopeStack = st.scopeStack.dropLast := rfl

@[simp] theorem scopeStack_enqueue (d : Decl) (st : GenState) :
    (enqueue d st).scopeStack = st.scopeStack := rfl

@[simp] theorem scopeStack_getVariantsCounted (ss : SelectionSet) (st : GenState) :
    ((getVariantsForSelectionSetCounted ss st).2).scopeStack = st.scopeStack := rfl

@[simp] theorem scopeStack_printAndClear (st : GenState) :
    ((printAndClear st).2).scopeStack = st.scopeStack := rfl

@[simp] theorem scopeStack_fileHeader (st : GenState) :
    (fileHeader st).scopeStack = st.scopeStack := rfl

/-! ## Scope stack discipline

Every push in getPropertiesForVariant, handleFieldSelectionSetValue and
variantsLoop is matched by exactly one pop: all four mutually recursive
emitter functions leave the scope stack exactly as they found it. -/

theorem scope_preservation (fuel : Nat) :
    (∀ merge variant st,
      ((getPropertiesForVariant fuel merge variant st).2).scopeStack = st.scopeStack)
    ∧ (∀ merge variant fields st,
      ((propertiesForFields fuel merge variant fields st).2).scopeStack = st.scopeStack)
    ∧ (∀ merge gname f ss st,
      ((handleFieldSelectionSetValue fuel merge gname f ss st).2).scopeStack = st.scopeStack)
    ∧ (∀ merge vs st,
      ((variantsLoop fuel merge vs st).2).scopeStack = st.scopeStack) := by
  induction fuel with
  | zero =>
    exact ⟨fun _ _ _ => rfl, fun _ _ _ _ => rfl, fun _ _ _ _ _ => rfl, fun _ _ _ => rfl⟩
  | succ n ih =>
    obtain ⟨ih1, ih2, ih3, ih4⟩ := ih
    refine ⟨?_, ?_, ?_, ?_⟩
    · intro merge variant st
      simp only [getPropertiesForVariant]
      exact ih2 _ _ _ _
    · intro merge variant fields st
      cases fields with
      | nil => rfl
      | cons f rest =>
        cases hfs : f.selectionSet with
        | none =>
          simp only [propertiesForFields, hfs]
          rw [ih2]
          simp
        | some ss =>
          simp only [propertiesForFields, hfs]
          rw [ih2, scopeStack_scopeStackPop, ih3]
          simp
    · intro merge gname f ss st
      simp only [handleFieldSelectionSetValue]
      by_cases h1 : ((getVariantsForSelectionSetCounted ss st).1).length = 1
      · simp only [h1, if_true]
        rw [scopeStack_enqueue, ih1, scopeStack_getVariantsCounted]
      · simp only [h1, if_false]
        rw [scopeStack_enqueue, ih4, scopeStack_getVariantsCounted]
    · intro merge vs st
      cases vs with
      | nil => rfl
      | cons v rest =>
        simp only [variantsLoop]
        rw [ih4, scopeStack_scopeStackPop, scopeStack_enqueue, ih1]
        simp

theorem getPropertiesForVariant_scope (fuel : Nat) (merge : Bool) (variant : SelectionSet)
    (st : GenState) :
    ((getPropertiesForVariant fuel merge variant st).2).scopeStack = st.scopeStack :=
  (scope_preservation fuel).1 merge variant st

theorem handleFieldSelectionSetValue_scope (fuel : Nat) (merge : Bool) (gname : String)
    (f : Field) (ss : SelectionSet) (st : GenState) :
    ((handleFieldSelectionSetValue fuel merge gname f ss st).2).scopeStack = st.scopeStack :=
  (scope_preservation fuel).2.2.1 merge gname f ss st

theorem variantsLoop_scope (fuel : Nat) (merge : Bool) (vs : List SelectionSet) (st : GenState) :
    ((variantsLoop fuel merge vs st).2).scopeStack = st.scopeStack :=
  (scope_preservation fuel).2.2.2 merge vs st

theorem interfacesForOperation_scope (fuel : Nat) (merge : Bool) (op : Operation)
    (st : GenState) :
    (interfacesForOperation fuel merge op st).scopeStack = st.scopeStack := by
  simp only [interfacesForOperation, interfacesForOperationFromVariants]
  by_cases h : 0 < op.operationVariables.length
  · simp only [h, if_true]
    rw [scopeStack_scopeStackPop, scopeStack_enqueue, scopeStack_scopeStackPush,
      scopeStack_scopeStackPop, scopeStack_enqueue, getPropertiesForVariant_scope]
    simp
  · simp only [h, if_false]
    rw [scopeStack_scopeStackPop, scopeStack_enqueue, getPropertiesForVariant_scope]
    simp

theorem interfacesForFragment_scope (fuel : Nat) (merge : Bool) (frag : Fragment)
    (st : GenState) :
    (interfacesForFragment fuel merge frag st).scopeStack = st.scopeStack := by
  simp only [interfacesForFragment]
  by_cases h : ((getVariantsForSelectionSetCounted frag.selectionSet
      (enqueue (Decl.raw (fragmentHeaderText frag.fragmentName))
        (scopeStackPush frag.fragmentName st))).1).length = 1
  · simp only [h, if_true]
    rw [scopeStack_scopeStackPop, scopeStack_enqueue, getPropertiesForVariant_scope]
    simp
  · simp only [h, if_false]
    rw [scopeStack_scopeStackPop, scopeStack_enqueue, variantsLoop_scope]
    simp

/-! ## The variant partition (spec sections 3 and 8) -/

theorem variantFor_possibleTypes (ss : SelectionSet) (k : List Nat) :
    (variantFor ss k).possibleTypes =
      ss.possibleTypes.filter fun t => decide (typeKeyIdx ss.selections t = k) := rfl

theorem mem_variantFor_key {ss : SelectionSet} {k : List Nat} {t : String}
    (h : t ∈ (variantFor ss k).possibleTypes) : typeKeyIdx ss.selections t = k := by
  rw [variantFor_possibleTypes] at h
  simpa using (List.mem_filter.mp h).2

/-- C2: the variants computed for a SelectionSet partition its possibleTypes:
every possible concrete type lies in some variant's possible types, every
variant's possible types come from the SelectionSet's, and no concrete type
lies in two distinct variants. -/
theorem claim_C2_variants_partition (ss : SelectionSet) :
    (∀ t, t ∈ ss.possibleTypes ↔ ∃ v, v ∈ exhaustiveVariants ss ∧ t ∈ v.possibleTypes)
    ∧ (∀ v1 v2 t, v1 ∈ exhaustiveVariants ss → v2 ∈ exhaustiveVariants ss →
        t ∈ v1.possibleTypes → t ∈ v2.possibleTypes → v1 = v2) := by
  constructor
  · intro t
    constructor
    · intro ht
      refine ⟨variantFor ss (typeKeyIdx ss.selections t), ?_, ?_⟩
      · exact List.mem_map_of_mem _
          ((mem_firstSeen _ _).mpr (List.mem_map_of_mem _ ht))
      · rw [variantFor_possibleTypes]
        exact List.mem_filter.mpr ⟨ht, by simp⟩
    · rintro ⟨v, hv, htv⟩
      obtain ⟨k, _, rfl⟩ := List.mem_map.mp hv
      rw [variantFor_possibleTypes] at htv
      exact List.mem_of_mem_filter htv
  · rintro v1 v2 t hv1 hv2 ht1 ht2
    obtain ⟨k1, _, rfl⟩ := List.mem_map.mp hv1
    obtain ⟨k2, _, rfl⟩ := List.mem_map.mp hv2
    rw [← mem_variantFor_key ht1, ← mem_variantFor_key ht2]

/-- Witness for C2 at a concrete two-variant union selection set. -/
theorem claim_C2_variants_partition_witness :
    ∃ v, v ∈ exhaustiveVariants (SelectionSet.mk ["Success", "Failure"] []) ∧
      "Success" ∈ v.possibleTypes :=
  ((claim_C2_variants_partition (SelectionSet.mk ["Success", "Failure"] [])).1 "Success").mp
    (by decide)

/-- C4: the naming scope stack obeys strict push/pop nesting: after
interfacesForOperation and interfacesForFragment return the scope stack equals
its value on entry, and likewise for every control path inside
getPropertiesForVariant and handleFieldSelectionSetValue. -/
theorem claim_C4_scope_stack_balanced (fuel : Nat) (merge : Bool) (op : Operation)
    (frag : Fragment) (variant ss : SelectionSet) (gname : String) (f : Field)
    (st1 st2 st3 st4 : GenState) :
    (interfacesForOperation fuel merge op st1).scopeStack = st1.scopeStack
    ∧ (interfacesForFragment fuel merge frag st2).scopeStack = st2.scopeStack
    ∧ ((getPropertiesForVariant fuel merge variant st3).2).scopeStack = st3.scopeStack
    ∧ ((handleFieldSelectionSetValue fuel merge gname f ss st4).2).scopeStack = st4.scopeStack :=
  ⟨interfacesForOperation_scope fuel merge op st1,
   interfacesForFragment_scope fuel merge frag st2,
   getPropertiesForVariant_scope fuel merge variant st3,
   handleFieldSelectionSetValue_scope fuel merge gname f ss st4⟩

/-! ## The __typename property type (claim C3) -/

/-- handleFieldValue on a field named __typename yields the union of the
string-literal types of the variant's possible type names. -/
theorem handleFieldValue_typename {f : Field} (variant : SelectionSet)
    (h : f.name = "__typename") :
    handleFieldValue f variant =
      ⟨responseKeyTruthy f, f.descr, TSType.unionOfLiterals variant.possibleTypes⟩ := by
  simp [handleFieldValue, h]

/-- A field without nested selection set that occurs among the fields handed
to propertiesForFields contributes exactly its handleFieldValue property,
provided the fuel covers the field list. -/
theorem propertiesForFields_mem :
    ∀ (fields : List Field) (fuel : Nat) (merge : Bool) (variant : SelectionSet)
      (st : GenState) (f : Field), f ∈ fields → f.selectionSet = none →
      fields.length ≤ fuel →
      handleFieldValue f variant ∈ (propertiesForFields fuel merge variant fields st).1 := by
  intro fields
  induction fields with
  | nil => intro fuel merge variant st f hf; simp at hf
  | cons g rest ih =>
    intro fuel merge variant st f hf hss hlen
    cases fuel with
    | zero => simp at hlen
    | succ m =>
      rcases List.mem_cons.mp hf with rfl | hmem
      · simp only [propertiesForFields, hss]
        exact List.mem_cons_self _ _
      · cases hgs : g.selectionSet with
        | none =>
          simp only [propertiesForFields, hgs]
          exact List.mem_cons_of_mem _
            (ih m merge variant _ f hmem hss (by simpa using Nat.le_of_succ_le_succ hlen))
        | some ssg =>
          simp only [propertiesForFields, hgs]
          exact List.mem_cons_of_mem _
            (ih m merge variant _ f hmem hss (by simpa using Nat.le_of_succ_le_succ hlen))

/-- C3: for every variant and every merged field named __typename without a
nested selection set, the property emitted by getPropertiesForVariant is typed
as the union of the string-literal types of the names of that variant's
possible concrete types. -/
theorem claim_C3_typename_property (fuel : Nat) (merge : Bool) (variant : SelectionSet)
    (st : GenState) (f : Field)
    (hmem : f ∈ collectAndMergeFields fuel merge variant)
    (hname : f.name = "__typename") (hss : f.selectionSet = none)
    (hfuel : (collectAndMergeFields fuel merge variant).length ≤ fuel) :
    (⟨responseKeyTruthy f, f.descr, TSType.unionOfLiterals variant.possibleTypes⟩ :
        ObjectProperty) ∈ (getPropertiesForVariant (fuel + 1) merge variant st).1 := by
  rw [← handleFieldValue_typename variant hname]
  simp only [getPropertiesForVariant]
  exact propertiesForFields_mem _ fuel merge variant _ f hmem hss hfuel

/-- The __typename field injected by addTypename (compiled IR shape). -/
def typenameField : Field :=
  .mk "__typename" none (.nonNull (.scalar "String")) none none

/-- A scalar field selected under the Success arm of the example union. -/
def valueField : Field := .mk "value" none (.scalar "Int") none none

/-- A scalar field selected under the Failure arm of the example union. -/
def messageField : Field := .mk "message" none (.scalar "String") none none

/-- Scenario C of the spec: a union Result = Success | Failure selected with
an unconditional __typename plus one inline condition per member. -/
def resultSelectionSet : SelectionSet :=
  .mk ["Success", "Failure"]
    [ .field typenameField,
      .typeCondition ["Success"] (.mk ["Success"] [.field valueField]),
      .typeCondition ["Failure"] (.mk ["Failure"] [.field messageField]) ]

/-- The Success variant of resultSelectionSet as the variant engine builds it. -/
def successVariant : SelectionSet :=
  .mk ["Success"]
    [ .field typenameField,
      .typeCondition ["Success"] (.mk ["Success"] [.field valueField]) ]

/-- Witness for C3: in the two-variant union of Scenario C, the Success
variant's __typename property is typed as the literal name of its own
concrete type. -/
theorem claim_C3_typename_property_witness :
    (⟨"__typename", none, TSType.unionOfLiterals ["Success"]⟩ : ObjectProperty)
      ∈ (getPropertiesForVariant 3 false successVariant initialGenState).1 :=
  claim_C3_typename_property 2 false successVariant initialGenState typenameField
    (List.mem_cons_self _ _) rfl rfl (by decide)

/-! ## Instrumentation counters: the emitter derives variants and merges itself -/

/-- Pointwise order on the two instrumentation counters. -/
def countersLE (s t : GenState) : Prop :=
  s.typeCaseCalls ≤ t.typeCaseCalls ∧ s.mergeCalls ≤ t.mergeCalls

theorem countersLE_refl (s : GenState) : countersLE s s := ⟨le_refl _, le_refl _⟩

theorem counters_mono (fuel : Nat) :
    (∀ merge variant st, countersLE st ((getPropertiesForVariant fuel merge variant st).2))
    ∧ (∀ merge variant fields st,
        countersLE st ((propertiesForFields fuel merge variant fields st).2))
    ∧ (∀ merge gname f ss st,
        countersLE st ((handleFieldSelectionSetValue fuel merge gname f ss st).2))
    ∧ (∀ merge vs st, countersLE st ((variantsLoop fuel merge vs st).2)) := by
  induction fuel with
  | zero =>
    exact ⟨fun _ _ st => countersLE_refl st, fun _ _ _ st => countersLE_refl st,
      fun _ _ _ _ st => countersLE_refl st, fun _ _ st => countersLE_refl st⟩
  | succ n ih =>
    obtain ⟨ih1, ih2, ih3, ih4⟩ := ih
    refine ⟨?_, ?_, ?_, ?_⟩
    · intro merge variant st
      simp only [getPropertiesForVariant]
      have hA := ih2 merge variant (collectAndMergeFields n merge variant)
        { st with mergeCalls := st.mergeCalls + 1 }
      exact ⟨hA.1, le_trans (Nat.le_succ _) hA.2⟩
    · intro merge variant fields st
      cases fields with
      | nil => exact countersLE_refl st
      | cons f rest =>
        cases hfs : f.selectionSet with
        | none =>
          simp only [propertiesForFields, hfs]
          exact ih2 merge variant rest
            (scopeStackPop (handleFieldValue f variant, scopeStackPush (responseKey f) st).2)
        | some ssf =>
          simp only [propertiesForFields, hfs]
          have hA := ih3 merge
            (nameFromScopeStack (scopeStackPush (responseKey f) st).scopeStack) f ssf
            (scopeStackPush (responseKey f) st)
          have hB := ih2 merge variant rest
            (scopeStackPop (handleFieldSelectionSetValue n merge
              (nameFromScopeStack (scopeStackPush (responseKey f) st).scopeStack) f ssf
              (scopeStackPush (responseKey f) st)).2)
          exact ⟨le_trans hA.1 hB.1, le_trans hA.2 hB.2⟩
    · intro merge gname f ss st
      simp only [handleFieldSelectionSetValue]
      by_cases h1 : ((getVariantsForSelectionSetCounted ss st).1).length = 1
      · simp only [h1, if_true]
        have hA := ih1 merge
          (((getVariantsForSelectionSetCounted ss st).1).headD (SelectionSet.mk [] []))
          ((getVariantsForSelectionSetCounted ss st).2)
        exact ⟨le_trans (Nat.le_succ _) hA.1, hA.2⟩
      · simp only [h1, if_false]
        have hA := ih4 merge ((getVariantsForSelectionSetCounted ss st).1)
          ((getVariantsForSelectionSetCounted ss st).2)
        exact ⟨le_trans (Nat.le_succ _) hA.1, hA.2⟩
    · intro merge vs st
      cases vs with
      | nil => exact countersLE_refl st
      | cons v rest =>
        simp only [variantsLoop]
        have hA := ih1 merge v (scopeStackPush (v.possibleTypes.headD "") st)
        have hB := ih4 merge rest
          (scopeStackPop (enqueue (Decl.exportInterface
            (nameFromScopeStack (getPropertiesForVariant n merge v
              (scopeStackPush (v.possibleTypes.headD "") st)).2.scopeStack)
            (getPropertiesForVariant n merge v
              (scopeStackPush (v.possibleTypes.headD "") st)).1)
            (getPropertiesForVariant n merge v
              (scopeStackPush (v.possibleTypes.headD "") st)).2))
        exact ⟨le_trans hA.1 hB.1, le_trans hA.2 hB.2⟩

theorem getPropertiesForVariant_counters (fuel : Nat) (merge : Bool) (variant : SelectionSet)
    (st : GenState) : countersLE st ((getPropertiesForVariant fuel merge variant st).2) :=
  (counters_mono fuel).1 merge variant st

/-- getPropertiesForVariant at positive fuel records at least one
collectAndMergeFields invocation. -/
theorem getPropertiesForVariant_merge_bump (fuel : Nat) (merge : Bool)
    (variant : SelectionSet) (st : GenState) :
    st.mergeCalls + 1 ≤ ((getPropertiesForVariant (fuel + 1) merge variant st).2).mergeCalls := by
  simp only [getPropertiesForVariant]
  exact ((counters_mono fuel).2.1 merge variant (collectAndMergeFields fuel merge variant)
    { st with mergeCalls := st.mergeCalls + 1 }).2

theorem interfacesForOperationFromVariants_counters (fuel : Nat) (merge : Bool)
    (op : Operation) (variants : List SelectionSet) (st : GenState) :
    countersLE st (interfacesForOperationFromVariants fuel merge op variants st) := by
  simp only [interfacesForOperationFromVariants]
  have hA := getPropertiesForVariant_counters fuel merge
    (variants.headD (SelectionSet.mk [] [])) st
  by_cases h : 0 < op.operationVariables.length
  · simp only [h, if_true]
    exact hA
  · simp only [h, if_false]
    exact hA

/-- The FromVariants part of interfacesForOperation at positive fuel records
at least one field merge. -/
theorem interfacesForOperationFromVariants_merge_bump (fuel : Nat) (merge : Bool)
    (op : Operation) (variants : List SelectionSet) (st : GenState) :
    st.mergeCalls + 1 ≤
      (interfacesForOperationFromVariants (fuel + 1) merge op variants st).mergeCalls := by
  simp only [interfacesForOperationFromVariants]
  have hA := getPropertiesForVariant_merge_bump fuel merge
    (variants.headD (SelectionSet.mk [] [])) st
  by_cases h : 0 < op.operationVariables.length
  · simp only [h, if_true]
    exact hA
  · simp only [h, if_false]
    exact hA

/-- interfacesForOperation records at least one variant computation. -/
theorem interfacesForOperation_typeCase_bump (fuel : Nat) (merge : Bool) (op : Operation)
    (st : GenState) :
    st.typeCaseCalls + 1 ≤ (interfacesForOperation fuel merge op st).typeCaseCalls := by
  simp only [interfacesForOperation]
  have hA := interfacesForOperationFromVariants_counters fuel merge op
    (getVariantsForSelectionSetCounted op.selectionSet
      (enqueue (Decl.raw (operationHeaderText op.operationType op.operationName))
        (scopeStackPush op.operationName st))).1
    (getVariantsForSelectionSetCounted op.selectionSet
      (enqueue (Decl.raw (operationHeaderText op.operationType op.operationName))
        (scopeStackPush op.operationName st))).2
  exact hA.1

/-- interfacesForOperation at positive fuel records at least one field merge. -/
theorem interfacesForOperation_merge_bump (fuel : Nat) (merge : Bool) (op : Operation)
    (st : GenState) :
    st.mergeCalls + 1 ≤ (interfacesForOperation (fuel + 1) merge op st).mergeCalls := by
  simp only [interfacesForOperation]
  exact interfacesForOperationFromVariants_merge_bump fuel merge op
    (getVariantsForSelectionSetCounted op.selectionSet
      (enqueue (Decl.raw (operationHeaderText op.operationType op.operationName))
        (scopeStackPush op.operationName st))).1
    (getVariantsForSelectionSetCounted op.selectionSet
      (enqueue (Decl.raw (operationHeaderText op.operationType op.operationName))
        (scopeStackPush op.operationName st))).2

theorem interfacesForOperation_counters (fuel : Nat) (merge : Bool) (op : Operation)
    (st : GenState) : countersLE st (interfacesForOperation fuel merge op st) := by
  simp only [interfacesForOperation]
  have hA := interfacesForOperationFromVariants_counters fuel merge op
    (getVariantsForSelectionSetCounted op.selectionSet
      (enqueue (Decl.raw (operationHeaderText op.operationType op.operationName))
        (scopeStackPush op.operationName st))).1
    (getVariantsForSelectionSetCounted op.selectionSet
      (enqueue (Decl.raw (operationHeaderText op.operationType op.operationName))
        (scopeStackPush op.operationName st))).2
  exact ⟨le_trans (Nat.le_succ _) hA.1, hA.2⟩

theorem interfacesForFragment_counters (fuel : Nat) (merge : Bool) (frag : Fragment)
    (st : GenState) : countersLE st (interfacesForFragment fuel merge frag st) := by
  simp only [interfacesForFragment]
  by_cases h : ((getVariantsForSelectionSetCounted frag.selectionSet
      (enqueue (Decl.raw (fragmentHeaderText frag.fragmentName))
        (scopeStackPush frag.fragmentName st))).1).length = 1
  · simp only [h, if_true]
    have hA := getPropertiesForVariant_counters fuel merge
      (((getVariantsForSelectionSetCounted frag.selectionSet
        (enqueue (Decl.raw (fragmentHeaderText frag.fragmentName))
          (scopeStackPush frag.fragmentName st))).1).headD (SelectionSet.mk [] []))
      ((getVariantsForSelectionSetCounted frag.selectionSet
        (enqueue (Decl.raw (fragmentHeaderText frag.fragmentName))
          (scopeStackPush frag.fragmentName st))).2)
    exact ⟨le_trans (Nat.le_succ _) hA.1, hA.2⟩
  · simp only [h, if_false]
    have hA := (counters_mono fuel).2.2.2 merge
      ((getVariantsForSelectionSetCounted frag.selectionSet
        (enqueue (Decl.raw (fragmentHeaderText frag.fragmentName))
          (scopeStackPush frag.fragmentName st))).1)
      ((getVariantsForSelectionSetCounted frag.selectionSet
        (enqueue (Decl.raw (fragmentHeaderText frag.fragmentName))
          (scopeStackPush frag.fragmentName st))).2)
    exact ⟨le_trans (Nat.le_succ _) hA.1, hA.2⟩

theorem emitOperations_counters (fuel : Nat) (merge : Bool) :
    ∀ (ops : List Operation) (st : GenState),
      countersLE st ((emitOperations fuel merge ops st).2) := by
  intro ops
  induction ops with
  | nil => intro st; exact countersLE_refl st
  | cons op rest ih =>
    intro st
    simp only [emitOperations]
    have hA := interfacesForOperation_counters fuel merge op (fileHeader st)
    have hB := ih ((printAndClear (interfacesForOperation fuel merge op (fileHeader st))).2)
    exact ⟨le_trans hA.1 hB.1, le_trans hA.2 hB.2⟩

theorem emitFragments_counters (fuel : Nat) (merge : Bool) :
    ∀ (frags : List Fragment) (st : GenState),
      countersLE st ((emitFragments fuel merge frags st).2) := by
  intro frags
  induction frags with
  | nil => intro st; exact countersLE_refl st
  | cons frag rest ih =>
    intro st
    simp only [emitFragments]
    have hA := interfacesForFragment_counters fuel merge frag (fileHeader st)
    have hB := ih ((printAndClear (interfacesForFragment fuel merge frag (fileHeader st))).2)
    exact ⟨le_trans hA.1 hB.1, le_trans hA.2 hB.2⟩

theorem printEnums_counters (typesUsed : List GType) (st : GenState) :
    countersLE st (printEnumsAndInputObjects typesUsed st) := by
  have h : ∀ (l : List GType) (f : GType → Decl) (s : GenState),
      countersLE s (l.foldl (fun acc t => enqueue (f t) acc) s) := by
    intro l
    induction l with
    | nil => intro f s; exact countersLE_refl s
    | cons t rest ih =>
      intro f s
      have hA := ih f (enqueue (f t) s)
      exact ⟨hA.1, hA.2⟩
  simp only [printEnumsAndInputObjects]
  have h1 := h (typesUsed.filter GType.isEnum) Decl.enumDecl
    (enqueue (Decl.raw startEnumsText) st)
  have h2 := h (typesUsed.filter GType.isInputObject) Decl.inputObjectDecl
    ((typesUsed.filter GType.isEnum).foldl (fun s t => enqueue (Decl.enumDecl t) s)
      (enqueue (Decl.raw startEnumsText) st))
  exact ⟨le_trans h1.1 h2.1, le_trans h1.2 h2.2⟩

/-! ## Claim C1: does the emitter consume precomputed variants? -/

/-- The positive counter fact behind C1: with at least one operation present,
generateSource itself performs at least one variant computation. -/
theorem generateSource_typeCase_pos (fuel : Nat) (ctx : CompilerContext) (op : Operation)
    (rest : List Operation) (hops : ctx.operations = op :: rest) :
    1 ≤ (generateSource fuel ctx).finalState.typeCaseCalls := by
  have h1 : 1 ≤ ((emitOperations fuel ctx.options.mergeInFieldsFromFragmentSpreads
      ctx.operations initialGenState).2).typeCaseCalls := by
    rw [hops]
    simp only [emitOperations]
    have hA := interfacesForOperation_typeCase_bump fuel
      ctx.options.mergeInFieldsFromFragmentSpreads op (fileHeader initialGenState)
    have hB := emitOperations_counters fuel ctx.options.mergeInFieldsFromFragmentSpreads rest
      ((printAndClear (interfacesForOperation fuel ctx.options.mergeInFieldsFromFragmentSpreads
        op (fileHeader initialGenState))).2)
    exact le_trans hA hB.1
  have h2 := emitFragments_counters fuel ctx.options.mergeInFieldsFromFragmentSpreads
    ctx.fragments ((emitOperations fuel ctx.options.mergeInFieldsFromFragmentSpreads
      ctx.operations initialGenState).2)
  have h3 := printEnums_counters ctx.typesUsed
    (fileHeader ((emitFragments fuel ctx.options.mergeInFieldsFromFragmentSpreads
      ctx.fragments ((emitOperations fuel ctx.options.mergeInFieldsFromFragmentSpreads
        ctx.operations initialGenState).2)).2))
  exact le_trans h1 (le_trans h2.1 h3.1)

/-- The positive counter fact behind C1: with at least one operation present
and positive fuel, generateSource itself performs at least one field merge. -/
theorem generateSource_merge_pos (fuel : Nat) (ctx : CompilerContext) (op : Operation)
    (rest : List Operation) (hops : ctx.operations = op :: rest) :
    1 ≤ (generateSource (fuel + 1) ctx).finalState.mergeCalls := by
  have h1 : 1 ≤ ((emitOperations (fuel + 1) ctx.options.mergeInFieldsFromFragmentSpreads
      ctx.operations initialGenState).2).mergeCalls := by
    rw [hops]
    simp only [emitOperations]
    have hA := interfacesForOperation_merge_bump fuel
      ctx.options.mergeInFieldsFromFragmentSpreads op (fileHeader initialGenState)
    have hB := emitOperations_counters (fuel + 1)
      ctx.options.mergeInFieldsFromFragmentSpreads rest
      ((printAndClear (interfacesForOperation (fuel + 1)
        ctx.options.mergeInFieldsFromFragmentSpreads op (fileHeader initialGenState))).2)
    exact le_trans hA hB.2
  have h2 := emitFragments_counters (fuel + 1) ctx.options.mergeInFieldsFromFragmentSpreads
    ctx.fragments ((emitOperations (fuel + 1) ctx.options.mergeInFieldsFromFragmentSpreads
      ctx.operations initialGenState).2)
  have h3 := printEnums_counters ctx.typesUsed
    (fileHeader ((emitFragments (fuel + 1) ctx.options.mergeInFieldsFromFragmentSpreads
      ctx.fragments ((emitOperations (fuel + 1) ctx.options.mergeInFieldsFromFragmentSpreads
        ctx.operations initialGenState).2)).2))
  exact le_trans h1 (le_trans h2.2 h3.2)

/-- A plain scalar field used by the concrete example contexts. -/
def heroField : Field := .mk "hero" none (.scalar "String") none none

/-- A one-operation example document. -/
def simpleOperation : Operation :=
  ⟨"HeroQuery", "query", "hero.graphql", [], SelectionSet.mk ["Query"] [.field heroField]⟩

/-- A CompilerContext holding exactly one operation and nothing else. -/
def singleOperationContext : CompilerContext :=
  ⟨[simpleOperation], [], [], ⟨false, false, false, ""⟩⟩

/-- Counterexample to C1 as stated: on a context with a single operation, the
TypeScript emitter's generateSource does itself invoke variant computation and
field merging (both instrumentation counters are nonzero at the end). -/
theorem claim_C1_counterexample :
    ¬ ((generateSource 3 singleOperationContext).finalState.typeCaseCalls = 0
       ∧ (generateSource 3 singleOperationContext).finalState.mergeCalls = 0) := by
  decide

/-- C1 (amended): the TypeScript emitter derives variants and merged fields
itself: on every CompilerContext holding at least one operation, generateSource
invokes typeCaseForSelectionSet at least once and (at positive fuel)
collectAndMergeFields at least once; the CompilerContext supplies selection
sets, not precomputed Variant/Field structures. -/
theorem claim_C1_emitter_derives (fuel : Nat) (ctx : CompilerContext)
    (h : ctx.operations ≠ []) :
    1 ≤ (generateSource fuel ctx).finalState.typeCaseCalls
    ∧ 1 ≤ (generateSource (fuel + 1) ctx).finalState.mergeCalls := by
  obtain ⟨op, rest, hops⟩ : ∃ op rest, ctx.operations = op :: rest := by
    cases hc : ctx.operations with
    | nil => exact absurd hc h
    | cons a l => exact ⟨a, l, rfl⟩
  exact ⟨generateSource_typeCase_pos fuel ctx op rest hops,
    generateSource_merge_pos fuel ctx op rest hops⟩

/-- Witness for the amended C1 at the single-operation context. -/
theorem claim_C1_emitter_derives_witness :
    1 ≤ (generateSource 3 singleOperationContext).finalState.typeCaseCalls
    ∧ 1 ≤ (generateSource 4 singleOperationContext).finalState.mergeCalls :=
  claim_C1_emitter_derives 3 singleOperationContext (List.cons_ne_nil _ _)

/-! ## Claim C9: only the first root variant is emitted for an operation -/

/-- C9: interfacesForOperation builds the operation's interface from only the
first variant of the root selection set's exhaustive variant list: replacing
every variant after the first changes nothing in the emitted state. -/
theorem claim_C9_operation_first_variant_only (fuel : Nat) (merge : Bool) (op : Operation)
    (v : SelectionSet) (rest1 rest2 : List SelectionSet) (st : GenState) :
    interfacesForOperationFromVariants fuel merge op (v :: rest1) st
      = interfacesForOperationFromVariants fuel merge op (v :: rest2) st := by
  simp [interfacesForOperationFromVariants]

/-! ## Claim C6: determinism -/

/-- C6: compilation and emission are deterministic: equal selection sets yield
equal exhaustive variant lists, and equal CompilerContext values yield equal
generated files and equal common output from the TypeScript emitter. The
embedding is a pure function of its input: the source iterates
insertion-ordered object values and uses no nondeterministic construct. -/
theorem claim_C6_deterministic (fuel : Nat) (c1 c2 : CompilerContext)
    (ss1 ss2 : SelectionSet) (h : c1 = c2) (hss : ss1 = ss2) :
    (generateSource fuel c1).generatedFiles = (generateSource fuel c2).generatedFiles
    ∧ (generateSource fuel c1).common = (generateSource fuel c2).common
    ∧ exhaustiveVariants ss1 = exhaustiveVariants ss2 := by
  subst h
  subst hss
  exact ⟨rfl, rfl, rfl⟩

/-- Witness for C6 at the single-operation context and the scenario-C union. -/
theorem claim_C6_deterministic_witness :
    (generateSource 3 singleOperationContext).generatedFiles
        = (generateSource 3 singleOperationContext).generatedFiles
    ∧ (generateSource 3 singleOperationContext).common
        = (generateSource 3 singleOperationContext).common
    ∧ exhaustiveVariants resultSelectionSet = exhaustiveVariants resultSelectionSet :=
  claim_C6_deterministic 3 singleOperationContext singleOperationContext
    resultSelectionSet resultSelectionSet rfl rfl

/-! ## Claim C10: target inference from the output extension -/

/-- C10: with no --target flag, target inference recognizes only the exact
extensions json, swift, ts, js and scala; every other final dot component, in
particular tsx and jsx, yields the could-not-infer error, because the
JavaScript case labels "ts" || "tsx" and "js" || "jsx" evaluate to their first
operand only. -/
theorem claim_C10_infer_target :
    (∀ s : String,
      lastDotComponent s ∉ (["json", "swift", "ts", "js", "scala"] : List String) →
      inferTargetFromOutput s = .error inferTargetErrorText)
    ∧ inferTargetFromOutput "App.tsx" = .error inferTargetErrorText
    ∧ inferTargetFromOutput "App.jsx" = .error inferTargetErrorText
    ∧ inferTargetFromOutput "App.ts" = .ok TargetType.typescript
    ∧ inferTargetFromOutput "App.js" = .ok TargetType.flow
    ∧ inferTargetFromOutput "App.json" = .ok TargetType.json
    ∧ inferTargetFromOutput "App.swift" = .ok TargetType.swift
    ∧ inferTargetFromOutput "App.scala" = .ok TargetType.scala := by
  refine ⟨?_, rfl, rfl, rfl, rfl, rfl, rfl, rfl⟩
  intro s hs
  unfold inferTargetFromOutput
  split
  · rename_i h; exact absurd (by simp [h]) hs
  · rename_i h; exact absurd (by simp [h]) hs
  · rename_i h; exact absurd (by simp [h]) hs
  · rename_i h; exact absurd (by simp [h]) hs
  · rename_i h; exact absurd (by simp [h]) hs
  · rfl

/-- Witness for C10: a .graphql output path cannot determine a target. -/
theorem claim_C10_infer_target_witness :
    inferTargetFromOutput "queries.graphql" = .error inferTargetErrorText :=
  claim_C10_infer_target.1 "queries.graphql" (by decide)

/-! ## Claim C7: derived type names -/

theorem string_append_left_cancel {s a b : String} (h : s ++ a = s ++ b) : a = b := by
  have hd := congrArg String.data h
  rw [String.data_append, String.data_append] at hd
  exact String.ext (List.append_cancel_left hd)

/-- Appending distinct last segments to one scope stack yields distinct
derived names. -/
theorem nameFromScopeStack_last_injective (l : List String) :
    Function.Injective fun t => nameFromScopeStack (l ++ [t]) := by
  induction l with
  | nil => intro a b h; exact h
  | cons x rest ih =>
    intro a b h
    cases rest with
    | nil => exact string_append_left_cancel h
    | cons y r => exact ih (string_append_left_cancel h)

/-- The names produced by the variants loop: each variant contributes the join
of the entry scope stack extended by its first possible type name. -/
theorem variantsLoop_names (merge : Bool) :
    ∀ (fuel : Nat) (vs : List SelectionSet) (st : GenState),
      (variantsLoop fuel merge vs st).1 =
        (vs.take fuel).map fun v =>
          nameFromScopeStack (st.scopeStack ++ [v.possibleTypes.headD ""]) := by
  intro fuel
  induction fuel with
  | zero => intro vs st; rfl
  | succ n ih =>
    intro vs st
    cases vs with
    | nil => rfl
    | cons v rest =>
      simp only [variantsLoop, List.take_succ_cons, List.map_cons, List.cons.injEq]
      constructor
      · rw [getPropertiesForVariant_scope, scopeStack_scopeStackPush]
      · rw [ih]
        have hst : (scopeStackPop (enqueue (Decl.exportInterface
            (nameFromScopeStack (getPropertiesForVariant n merge v
              (scopeStackPush (v.possibleTypes.headD "") st)).2.scopeStack)
            (getPropertiesForVariant n merge v
              (scopeStackPush (v.possibleTypes.headD "") st)).1)
            (getPropertiesForVariant n merge v
              (scopeStackPush (v.possibleTypes.headD "") st)).2)).scopeStack
            = st.scopeStack := by
          rw [scopeStack_scopeStackPop, scopeStack_enqueue, getPropertiesForVariant_scope,
            scopeStack_scopeStackPush]
          simp
        rw [hst]

/-- C7 (amended): within one multi-variant fragment or field, the sibling
variant interfaces receive pairwise distinct derived names whenever the
variants' first possible-type names are pairwise distinct (which the variant
partition guarantees when schema type names are unique); distinctness across
the whole document does not hold in general (see the counterexample). -/
theorem claim_C7_sibling_variant_names_distinct (fuel : Nat) (merge : Bool)
    (vs : List SelectionSet) (st : GenState)
    (h : (vs.map fun v => v.possibleTypes.headD "").Nodup) :
    ((variantsLoop fuel merge vs st).1).Nodup := by
  rw [variantsLoop_names]
  have h1 : ((vs.take fuel).map fun v => v.possibleTypes.headD "").Nodup := by
    rw [List.map_take]
    exact h.sublist (List.take_sublist _ _)
  have h2 : ((vs.take fuel).map fun v =>
      nameFromScopeStack (st.scopeStack ++ [v.possibleTypes.headD ""]))
      = ((vs.take fuel).map fun v => v.possibleTypes.headD "").map
          (fun t => nameFromScopeStack (st.scopeStack ++ [t])) := by
    rw [List.map_map]
    rfl
  rw [h2]
  exact h1.map (nameFromScopeStack_last_injective st.scopeStack)

/-- Witness for the amended C7: two sibling variants with distinct first
possible-type names receive distinct derived names. -/
theorem claim_C7_sibling_variant_names_distinct_witness :
    ((variantsLoop 4 false (exhaustiveVariants resultSelectionSet)
      (scopeStackPush "OnResult" initialGenState)).1).Nodup :=
  claim_C7_sibling_variant_names_distinct 4 false
    (exhaustiveVariants resultSelectionSet)
    (scopeStackPush "OnResult" initialGenState) (by decide)

/-- The name carried by an exported declaration. -/
def declName : Decl → Option String
  | .exportInterface n _ => some n
  | .exportInterfaceVars n _ => some n
  | .exportUnion n _ => some n
  | _ => none

/-- Every exported type name of one generateSource run, in emission order. -/
def generatedTypeNames (r : GenerateSourceResult) : List String :=
  ((r.generatedFiles.map fun gf => gf.content).flatten.filterMap declName)
    ++ r.common.filterMap declName

/-- A fragment named G on a union whose members are named A_B and C. -/
def fragG : Fragment :=
  ⟨"G", "g.graphql",
   .mk ["A_B", "C"]
     [ .typeCondition ["A_B"] (.mk ["A_B"] [.field heroField]),
       .typeCondition ["C"] (.mk ["C"] [.field heroField]) ]⟩

/-- A fragment named G_A on a union whose members are named B and D. -/
def fragGA : Fragment :=
  ⟨"G_A", "ga.graphql",
   .mk ["B", "D"]
     [ .typeCondition ["B"] (.mk ["B"] [.field heroField]),
       .typeCondition ["D"] (.mk ["D"] [.field heroField]) ]⟩

/-- A document whose two fragments generate a colliding derived name: both
G with variant A_B and G_A with variant B derive the name G_A_B. -/
def collidingContext : CompilerContext :=
  ⟨[], [fragG, fragGA], [], ⟨false, false, false, ""⟩⟩

/-- Counterexample to C7 as stated: the derived names are not pairwise
distinct across one document: fragment G (variant A_B) and fragment G_A
(variant B) both derive the interface name G_A_B, a silent collision. -/
theorem claim_C7_counterexample :
    ¬ (generatedTypeNames (generateSource 4 collidingContext)).Nodup := by
  decide

/-! ## Claim C5: fail-fast atomicity of generate -/

/-- C5: when loading, document validation, or IR compilation for the selected
target raises an error, generate propagates exactly that error and performs no
fs.writeFileSync call: loading and validation precede every file write, and
compilation precedes every write in each target branch. -/
theorem claim_C5_generate_failfast (fuel : Nat) (deps : GenerateDeps)
    (inputPaths : List String) (schema : Schema) (outputPath : String)
    (only : Option String) (target : TargetType) (tagName : String)
    (nextToSources : Bool) (options : CompilerOptions) (e : String)
    (h : deps.loadAndMergeQueryDocuments inputPaths tagName = .error e
      ∨ (∃ d, deps.loadAndMergeQueryDocuments inputPaths tagName = .ok d
          ∧ deps.validateQueryDocument schema d = .error e)
      ∨ (∃ d, deps.loadAndMergeQueryDocuments inputPaths tagName = .ok d
          ∧ deps.validateQueryDocument schema d = .ok ()
          ∧ ((target = TargetType.swift
                ∧ deps.compileToIR schema d { options with addTypename := true } = .error e)
            ∨ ((target = TargetType.flow ∨ target = TargetType.typescript
                  ∨ target = TargetType.ts)
                ∧ deps.compileToIR schema d options = .error e)
            ∨ (target ≠ TargetType.swift
                ∧ ¬(target = TargetType.flow ∨ target = TargetType.typescript
                      ∨ target = TargetType.ts)
                ∧ deps.compileToLegacyIR schema d options = .error e)))) :
    (generate fuel deps inputPaths schema outputPath only target tagName
        nextToSources options).result = .error e
    ∧ (generate fuel deps inputPaths schema outputPath only target tagName
        nextToSources options).writes = [] := by
  rcases h with hload | ⟨d, hload, hval⟩ | ⟨d, hload, hval, hcomp⟩
  · simp [generate, hload]
  · simp [generate, hload, hval]
  · rcases hcomp with ⟨htgt, hcomp⟩ | ⟨htgt, hcomp⟩ | ⟨hne, hnf, hcomp⟩
    · subst htgt
      simp [generate, hload, hval, hcomp]
    · have hne : target ≠ TargetType.swift := by
        rcases htgt with rfl | rfl | rfl <;> simp
      simp [generate, hload, hval, hne, htgt, hcomp]
    · simp [generate, hload, hval, hne, hnf, hcomp]

/-- Dependencies whose validator rejects every document. -/
def failingDeps : GenerateDeps :=
  ⟨fun _ _ => .ok "doc", fun _ _ => .error "validation failed",
   fun _ _ _ => .error "unused", fun _ _ _ => .error "unused",
   fun _ => "", fun _ => "", fun _ => "", fun _ => "",
   fun c => generateSource 0 c, fun _ _ _ => ⟨[], ""⟩, fun _ => "",
   fun _ => false, fun _ => false⟩

/-- Witness for C5: a failing validation propagates and nothing is written. -/
theorem claim_C5_generate_failfast_witness :
    (generate 1 failingDeps ["q.graphql"] "schema" "out.ts" none TargetType.typescript
        "gql" false ⟨false, false, false, ""⟩).result = .error "validation failed"
    ∧ (generate 1 failingDeps ["q.graphql"] "schema" "out.ts" none TargetType.typescript
        "gql" false ⟨false, false, false, ""⟩).writes = [] :=
  claim_C5_generate_failfast 1 failingDeps ["q.graphql"] "schema" "out.ts" none
    TargetType.typescript "gql" false ⟨false, false, false, ""⟩ "validation failed"
    (Or.inr (Or.inl ⟨"doc", rfl, rfl⟩))

/-! ## Claim C8: the swift target forces addTypename -/

/-- C8: for target swift, generate mutates the caller's options object,
setting addTypename to true before invoking compileToIR, so the IR is always
compiled with addTypename true; for every other target the caller's options
value is passed to compileToIR or compileToLegacyIR unchanged. -/
theorem claim_C8_swift_addTypename (fuel : Nat) (deps : GenerateDeps)
    (inputPaths : List String) (schema : Schema) (outputPath : String)
    (only : Option String) (target : TargetType) (tagName : String)
    (nextToSources : Bool) (options : CompilerOptions) (d : DocumentAst)
    (hload : deps.loadAndMergeQueryDocuments inputPaths tagName = .ok d)
    (hval : deps.validateQueryDocument schema d = .ok ()) :
    (target = TargetType.swift →
      (generate fuel deps inputPaths schema outputPath only target tagName
          nextToSources options).compileOptions = some { options with addTypename := true }
      ∧ (generate fuel deps inputPaths schema outputPath only target tagName
          nextToSources options).finalOptions = { options with addTypename := true })
    ∧ (target ≠ TargetType.swift →
      (generate fuel deps inputPaths schema outputPath only target tagName
          nextToSources options).compileOptions = some options
      ∧ (generate fuel deps inputPaths schema outputPath only target tagName
          nextToSources options).finalOptions = options) := by
  constructor
  · rintro rfl
    cases hc : deps.compileToIR schema d { options with addTypename := true } with
    | error e => simp [generate, hload, hval, hc]
    | ok ctx => simp [generate, hload, hval, hc]
  · intro hne
    cases target with
    | swift => exact absurd rfl hne
    | flow =>
      cases hc : deps.compileToIR schema d options with
      | error e => simp [generate, hload, hval, hc]
      | ok ctx =>
        simp only [generate, hload, hval]
        simp [hc]
        split
        · simp
        · split <;> simp
    | typescript =>
      cases hc : deps.compileToIR schema d options with
      | error e => simp [generate, hload, hval, hc]
      | ok ctx =>
        simp only [generate, hload, hval]
        simp [hc]
        split
        · simp
        · split <;> simp
    | ts =>
      cases hc : deps.compileToIR schema d options with
      | error e => simp [generate, hload, hval, hc]
      | ok ctx =>
        simp only [generate, hload, hval]
        simp [hc]
        split
        · simp
        · split <;> simp
    | json =>
      cases hc : deps.compileToLegacyIR schema d options with
      | error e => simp [generate, hload, hval, hc]
      | ok ctx =>
        simp only [generate, hload, hval]
        simp [hc]
        split <;> simp
    | tsLegacy =>
      cases hc : deps.compileToLegacyIR schema d options with
      | error e => simp [generate, hload, hval, hc]
      | ok ctx =>
        simp only [generate, hload, hval]
        simp [hc]
        split <;> simp
    | typescriptLegacy =>
      cases hc : deps.compileToLegacyIR schema d options with
      | error e => simp [generate, hload, hval, hc]
      | ok ctx =>
        simp only [generate, hload, hval]
        simp [hc]
        split <;> simp
    | flowLegacy =>
      cases hc : deps.compileToLegacyIR schema d options with
      | error e => simp [generate, hload, hval, hc]
      | ok ctx =>
        simp only [generate, hload, hval]
        simp [hc]
        split <;> simp
    | scala =>
      cases hc : deps.compileToLegacyIR schema d options with
      | error e => simp [generate, hload, hval, hc]
      | ok ctx =>
        simp only [generate, hload, hval]
        simp [hc]
        split <;> simp

/-- An empty compiled context for the C8 witness dependencies. -/
def emptyContext : CompilerContext := ⟨[], [], [], ⟨false, false, false, ""⟩⟩

/-- Dependencies where loading, validation and compilation all succeed. -/
def okDeps : GenerateDeps :=
  ⟨fun _ _ => .ok "doc", fun _ _ => .ok (), fun _ _ _ => .ok emptyContext,
   fun _ _ _ => .ok "legacy", fun _ => "", fun _ => "", fun _ => "", fun _ => "",
   fun c => generateSource 0 c, fun _ _ _ => ⟨[], ""⟩, fun _ => "",
   fun _ => false, fun _ => false⟩

/-- Witness for C8: a swift run with caller addTypename false still compiles
with addTypename true and leaves the caller's options mutated. -/
theorem claim_C8_swift_addTypename_witness :
    (generate 1 okDeps [] "schema" "out" none TargetType.swift "gql" false
        ⟨false, false, false, ""⟩).compileOptions = some ⟨true, false, false, ""⟩
    ∧ (generate 1 okDeps [] "schema" "out" none TargetType.swift "gql" false
        ⟨false, false, false, ""⟩).finalOptions = ⟨true, false, false, ""⟩ :=
  (claim_C8_swift_addTypename 1 okDeps [] "schema" "out" none TargetType.swift "gql"
    false ⟨false, false, false, ""⟩ "doc" rfl rfl).1 rfl

end ApolloCli
